import Mathlib

/-!
Shallow embedding of the ChipuRobo rover autonomy core:
the quadrature encoder odometry estimator (src/chipurobo/hardware/encoders.py,
class MotorEncoder) and the differential-drive command mixer
(src/chipurobo/hardware/motors.py, class L298NMotorDriver).

Python floats are modelled as real numbers, Python ints as integers.
Edge-interrupt callbacks are modelled as explicit state-passing functions;
a sequence of delivered edges is a list folded over the encoder state.
-/

namespace Chipurobo

noncomputable section

/-- State of one MotorEncoder instance, mirroring the fields assigned in
MotorEncoder.init of encoders.py: pins, geometry, the pulse counter,
the velocity estimate, the timestamp of the last processed edge and the
active flag. -/
structure MotorEncoder where
  pin_a : ℤ
  pin_b : ℤ
  ppr : ℤ
  wheel_diameter : ℝ
  gear_ratio : ℝ
  wheel_circumference : ℝ
  count : ℤ
  velocity : ℝ
  last_time : ℝ
  active : Bool

namespace MotorEncoder

/-- MotorEncoder constructor (encoders.py lines 23 to 51): stores the pins and
geometry, sets circumference to pi times the wheel diameter, zeroes the
counter and velocity, records the construction time and starts inactive.
No argument is validated. The active flag only becomes true when the GPIO
setup succeeds. -/
def init (pin_a pin_b ppr : ℤ) (wheel_diameter gear_ratio t0 : ℝ) : MotorEncoder :=
  { pin_a := pin_a
    pin_b := pin_b
    ppr := ppr
    wheel_diameter := wheel_diameter
    gear_ratio := gear_ratio
    wheel_circumference := Real.pi * wheel_diameter
    count := 0
    velocity := 0
    last_time := t0
    active := false }

/-- Success path of setup_gpio (encoders.py lines 53 to 67): the channels are
subscribed and the active flag is set. On failure the state is unchanged. -/
def setup_gpio (e : MotorEncoder) : MotorEncoder := { e with active := true }

/-- The edge callback process_encoder_pulse (encoders.py lines 77 to 101).
If the encoder is inactive it returns immediately with no mutation.
Otherwise it samples both channel levels, counts forward when they are
equal and backward when they differ, recomputes the velocity when the
elapsed time since the previous edge exceeds one millisecond (retaining
the previous estimate otherwise), and records the edge time.
The sampled levels and the current time are parameters here because the
Python code reads them from the hardware clock and pins. -/
def process_encoder_pulse (a_level b_level : Bool) (current_time : ℝ)
    (e : MotorEncoder) : MotorEncoder :=
  if e.active then
    let dt := current_time - e.last_time
    { e with
      count := if a_level = b_level then e.count + 1 else e.count - 1
      velocity := if dt > 0.001 then 1 / dt / (e.ppr : ℝ) * e.wheel_circumference
                  else e.velocity
      last_time := current_time }
  else e

/-- get_distance (encoders.py lines 103 to 107): revolutions times
circumference. -/
def get_distance (e : MotorEncoder) : ℝ :=
  (e.count : ℝ) / (e.ppr : ℝ) * e.wheel_circumference

/-- get_velocity (encoders.py lines 109 to 111): returns the velocity field. -/
def get_velocity (e : MotorEncoder) : ℝ := e.velocity

/-- get_count (encoders.py lines 113 to 116): returns the raw count. -/
def get_count (e : MotorEncoder) : ℤ := e.count

/-- reset (encoders.py lines 118 to 121): zeroes the count, nothing else. -/
def reset (e : MotorEncoder) : MotorEncoder := { e with count := 0 }

/-- cleanup (encoders.py lines 137 to 147): clears the active flag and
releases the pin resources; no counter or geometry field is touched. -/
def cleanup (e : MotorEncoder) : MotorEncoder := { e with active := false }

end MotorEncoder

/-- One delivered edge of channel A: the sampled levels of both channels at
edge time and the hardware clock reading. -/
structure EdgeEvent where
  a_level : Bool
  b_level : Bool
  time : ℝ

/-- Deliver a list of edges to the encoder, in arrival order. -/
def run_edges (e : MotorEncoder) (evs : List EdgeEvent) : MotorEncoder :=
  evs.foldl (fun s ev => MotorEncoder.process_encoder_pulse ev.a_level ev.b_level ev.time s) e

/-- The signed contribution of one edge to the count: plus one when the
sampled levels agree, minus one when they differ. -/
def edge_increment (ev : EdgeEvent) : ℤ := if ev.a_level = ev.b_level then 1 else -1

/-- A burst of edges on which both channels sample equal (forward travel),
one per clock reading in the list. -/
def forward_edges (times : List ℝ) : List EdgeEvent :=
  times.map fun t => { a_level := true, b_level := true, time := t }

/-- Motor side selector, the motor argument of set_motor_speed. -/
inductive Side where
  | left
  | right
  deriving DecidableEq, Repr

/-- Direction token of set_motor_speed; any token other than forward or
backward takes the stop branch in motors.py, so the three cover the code. -/
inductive Direction where
  | forward
  | backward
  | stop
  deriving DecidableEq, Repr

/-- The per-wheel actuation emitted by set_motor_speed on the hardware path:
which motor, the two direction pin levels written (in1, in2) and the PWM
duty cycle. Forward is (true, false), backward is (false, true) and stop
is (false, false) with zero duty. -/
structure MotorActuation where
  motor : Side
  in1 : Bool
  in2 : Bool
  duty : ℝ

namespace L298NMotorDriver

/-- set_motor_speed (motors.py lines 63 to 102), hardware emission path:
the speed is clamped by absolute value capped at one, the direction pins
are set from the direction token, and on the stop branch the speed is
forced to zero before the PWM write. -/
def set_motor_speed (motor : Side) (speed : ℝ) (direction : Direction) : MotorActuation :=
  let s := max 0 (min 1 |speed|)
  match direction with
  | .forward => { motor := motor, in1 := true, in2 := false, duty := s }
  | .backward => { motor := motor, in1 := false, in2 := true, duty := s }
  | .stop => { motor := motor, in1 := false, in2 := false, duty := 0 }

/-- drive_tank (motors.py lines 104 to 126): sign selects the direction,
magnitude the speed, zero maps to stop; one set_motor_speed call per side. -/
def drive_tank (left_speed right_speed : ℝ) : MotorActuation × MotorActuation :=
  ( if left_speed > 0 then set_motor_speed .left left_speed .forward
    else if left_speed < 0 then set_motor_speed .left |left_speed| .backward
    else set_motor_speed .left 0 .stop
  , if right_speed > 0 then set_motor_speed .right right_speed .forward
    else if right_speed < 0 then set_motor_speed .right |right_speed| .backward
    else set_motor_speed .right 0 .stop )

/-- The arcade mixing stage of drive_arcade (motors.py lines 128 to 146):
left is forward plus turn, right is forward minus turn, and when the larger
magnitude exceeds one both are divided by it. -/
def arcade_speeds (forward_speed turn_rate : ℝ) : ℝ × ℝ :=
  let left_speed := forward_speed + turn_rate
  let right_speed := forward_speed - turn_rate
  let max_speed := max |left_speed| |right_speed|
  if max_speed > 1 then (left_speed / max_speed, right_speed / max_speed)
  else (left_speed, right_speed)

/-- drive_arcade (motors.py lines 128 to 146): mix, normalize, delegate to
drive_tank. -/
def drive_arcade (forward_speed turn_rate : ℝ) : MotorActuation × MotorActuation :=
  drive_tank (arcade_speeds forward_speed turn_rate).1 (arcade_speeds forward_speed turn_rate).2

/-- stop (motors.py lines 148 to 150): tank drive with both speeds zero. -/
def stop : MotorActuation × MotorActuation := drive_tank 0 0

end L298NMotorDriver

end

/-! Helper lemmas shared by the claim theorems. -/

theorem process_pulse_active (a b : Bool) (t : ℝ) (e : MotorEncoder) :
    (MotorEncoder.process_encoder_pulse a b t e).active = e.active := by
  unfold MotorEncoder.process_encoder_pulse
  split <;> rfl

theorem process_pulse_count_of_active (a b : Bool) (t : ℝ) (e : MotorEncoder)
    (h : e.active = true) :
    (MotorEncoder.process_encoder_pulse a b t e).count
      = e.count + (if a = b then 1 else -1) := by
  unfold MotorEncoder.process_encoder_pulse
  rw [h, if_pos rfl]
  by_cases hab : a = b
  · simp [hab]
  · simp [hab]
    ring

theorem process_pulse_geometry (a b : Bool) (t : ℝ) (e : MotorEncoder) :
    (MotorEncoder.process_encoder_pulse a b t e).ppr = e.ppr
    ∧ (MotorEncoder.process_encoder_pulse a b t e).wheel_circumference
        = e.wheel_circumference
    ∧ (MotorEncoder.process_encoder_pulse a b t e).wheel_diameter = e.wheel_diameter
    ∧ (MotorEncoder.process_encoder_pulse a b t e).gear_ratio = e.gear_ratio := by
  unfold MotorEncoder.process_encoder_pulse
  split <;> exact ⟨rfl, rfl, rfl, rfl⟩

theorem run_edges_nil (e : MotorEncoder) : run_edges e [] = e := rfl

theorem run_edges_cons (e : MotorEncoder) (ev : EdgeEvent) (tl : List EdgeEvent) :
    run_edges e (ev :: tl)
      = run_edges (MotorEncoder.process_encoder_pulse ev.a_level ev.b_level ev.time e) tl := rfl

theorem run_edges_geometry (evs : List EdgeEvent) (e : MotorEncoder) :
    (run_edges e evs).ppr = e.ppr
    ∧ (run_edges e evs).wheel_circumference = e.wheel_circumference := by
  induction evs generalizing e with
  | nil => exact ⟨rfl, rfl⟩
  | cons ev tl ih =>
    rw [run_edges_cons]
    obtain ⟨h1, h2⟩ := ih (MotorEncoder.process_encoder_pulse ev.a_level ev.b_level ev.time e)
    obtain ⟨g1, g2, -, -⟩ := process_pulse_geometry ev.a_level ev.b_level ev.time e
    exact ⟨h1.trans g1, h2.trans g2⟩

theorem forward_edges_increment_sum (times : List ℝ) :
    ((forward_edges times).map edge_increment).sum = times.length := by
  induction times with
  | nil => rfl
  | cons t tl ih =>
    simp only [forward_edges, List.map_cons, List.map_map, List.sum_cons] at *
    rw [ih]
    simp [edge_increment]
    omega

theorem run_edges_count_of_active (evs : List EdgeEvent) (e : MotorEncoder)
    (h : e.active = true) :
    (run_edges e evs).count = e.count + (evs.map edge_increment).sum := by
  induction evs generalizing e with
  | nil => simp [run_edges_nil]
  | cons ev tl ih =>
    rw [run_edges_cons, ih _ (by rw [process_pulse_active, h]),
      process_pulse_count_of_active _ _ _ _ h]
    simp [edge_increment]
    ring

theorem process_pulse_velocity_nonneg (a b : Bool) (t : ℝ) (e : MotorEncoder)
    (hc : 0 ≤ e.wheel_circumference) (hp : 0 ≤ (e.ppr : ℝ)) (hv : 0 ≤ e.velocity) :
    0 ≤ (MotorEncoder.process_encoder_pulse a b t e).velocity := by
  by_cases ha : e.active = true
  · simp only [MotorEncoder.process_encoder_pulse, ha, if_true]
    by_cases hdt : t - e.last_time > 0.001
    · rw [if_pos hdt]
      have hdtpos : (0 : ℝ) < t - e.last_time := lt_trans (by norm_num) hdt
      exact mul_nonneg (div_nonneg (div_nonneg zero_le_one hdtpos.le) hp) hc
    · rw [if_neg hdt]
      exact hv
  · simp only [MotorEncoder.process_encoder_pulse, ha]
    simpa using hv

theorem run_edges_velocity_nonneg (evs : List EdgeEvent) (e : MotorEncoder)
    (hc : 0 ≤ e.wheel_circumference) (hp : 0 ≤ (e.ppr : ℝ)) (hv : 0 ≤ e.velocity) :
    0 ≤ (run_edges e evs).velocity := by
  induction evs generalizing e with
  | nil => exact hv
  | cons ev tl ih =>
    rw [run_edges_cons]
    obtain ⟨g1, g2, -, -⟩ := process_pulse_geometry ev.a_level ev.b_level ev.time e
    exact ih _ (by rw [g2]; exact hc) (by rw [g1]; exact hp)
      (process_pulse_velocity_nonneg ev.a_level ev.b_level ev.time e hc hp hv)

/-! Claim theorems. -/

/-- C1. For every processed edge event on an active encoder, if the sampled
levels of channel A and channel B are equal at edge time, the pulse count
increases by exactly 1, and if they differ it decreases by exactly 1; over
any sequence of edges the count equals the count before plus the signed sum
of the per-edge increments. -/
theorem pulse_count_signed_sum (e : MotorEncoder) (a b : Bool) (t : ℝ)
    (evs : List EdgeEvent) (h : e.active = true) :
    ((a = b → (MotorEncoder.process_encoder_pulse a b t e).count = e.count + 1)
      ∧ (a ≠ b → (MotorEncoder.process_encoder_pulse a b t e).count = e.count - 1))
    ∧ (run_edges e evs).count = e.count + (evs.map edge_increment).sum := by
  refine ⟨⟨fun hab => ?_, fun hab => ?_⟩, run_edges_count_of_active evs e h⟩
  · rw [process_pulse_count_of_active _ _ _ _ h, if_pos hab]
  · rw [process_pulse_count_of_active _ _ _ _ h, if_neg hab]
    ring

/-- Witness for C1 on a concrete active encoder and a concrete edge burst:
one equal-level edge adds one, one unequal-level edge subtracts one, and a
two-edge sequence of one of each nets zero. -/
theorem pulse_count_signed_sum_witness :
    (MotorEncoder.setup_gpio (MotorEncoder.init 17 18 11 4 1 0)).active = true
    ∧ (((true = true →
        (MotorEncoder.process_encoder_pulse true true 1
          (MotorEncoder.setup_gpio (MotorEncoder.init 17 18 11 4 1 0))).count
          = (MotorEncoder.setup_gpio (MotorEncoder.init 17 18 11 4 1 0)).count + 1)
      ∧ (true ≠ true →
        (MotorEncoder.process_encoder_pulse true true 1
          (MotorEncoder.setup_gpio (MotorEncoder.init 17 18 11 4 1 0))).count
          = (MotorEncoder.setup_gpio (MotorEncoder.init 17 18 11 4 1 0)).count - 1))
    ∧ (run_edges (MotorEncoder.setup_gpio (MotorEncoder.init 17 18 11 4 1 0))
        [{ a_level := true, b_level := true, time := 1 },
         { a_level := true, b_level := false, time := 2 }]).count
      = (MotorEncoder.setup_gpio (MotorEncoder.init 17 18 11 4 1 0)).count
        + ([{ a_level := true, b_level := true, time := 1 },
            { a_level := true, b_level := false, time := 2 }].map edge_increment).sum) :=
  ⟨rfl, pulse_count_signed_sum (MotorEncoder.setup_gpio (MotorEncoder.init 17 18 11 4 1 0))
    true true 1
    [{ a_level := true, b_level := true, time := 1 },
     { a_level := true, b_level := false, time := 2 }] rfl⟩

/-- C2. get_distance returns count over pulses per revolution times the
circumference; the gear ratio field does not enter the result; and after n
net forward pulses on an encoder built with ppr 11 and wheel diameter 4 the
distance is n over 11 times pi times 4 inches. -/
theorem get_distance_formula (e : MotorEncoder) (g : ℝ) (pa pb : ℤ) (t0 : ℝ)
    (times : List ℝ) :
    e.get_distance = (e.count : ℝ) / (e.ppr : ℝ) * e.wheel_circumference
    ∧ MotorEncoder.get_distance { e with gear_ratio := g } = e.get_distance
    ∧ (run_edges (MotorEncoder.setup_gpio (MotorEncoder.init pa pb 11 4 1 t0))
        (forward_edges times)).get_distance
      = ((times.length : ℝ) / 11) * (Real.pi * 4) := by
  refine ⟨rfl, rfl, ?_⟩
  have hcount := run_edges_count_of_active (forward_edges times)
    (MotorEncoder.setup_gpio (MotorEncoder.init pa pb 11 4 1 t0)) rfl
  rw [forward_edges_increment_sum] at hcount
  obtain ⟨hppr, hcirc⟩ := run_edges_geometry (forward_edges times)
    (MotorEncoder.setup_gpio (MotorEncoder.init pa pb 11 4 1 t0))
  unfold MotorEncoder.get_distance
  rw [hcount, hppr, hcirc]
  show ((0 + (times.length : ℤ) : ℤ) : ℝ) / ((11 : ℤ) : ℝ) * (Real.pi * 4) = _
  push_cast
  ring

/-- C4. set_motor_speed emits a duty cycle in the interval from 0 to 1 for
every input speed and side; for the forward and backward tokens the duty is
the absolute value of the speed capped at 1; the stop token forces duty 0;
and a left motor commanded forward at speed minus 0.5 gets duty 0.5. -/
theorem set_motor_speed_clamps (m : Side) (speed : ℝ) (d : Direction) :
    (0 ≤ (L298NMotorDriver.set_motor_speed m speed d).duty
      ∧ (L298NMotorDriver.set_motor_speed m speed d).duty ≤ 1)
    ∧ (L298NMotorDriver.set_motor_speed m speed .forward).duty = min 1 |speed|
    ∧ (L298NMotorDriver.set_motor_speed m speed .backward).duty = min 1 |speed|
    ∧ (L298NMotorDriver.set_motor_speed m speed .stop).duty = 0
    ∧ (L298NMotorDriver.set_motor_speed .left (-0.5) .forward).duty = 0.5 := by
  have hmin : (0 : ℝ) ≤ min 1 |speed| := le_min zero_le_one (abs_nonneg speed)
  have hfwd : (L298NMotorDriver.set_motor_speed m speed .forward).duty
      = min 1 |speed| := by
    show max 0 (min 1 |speed|) = min 1 |speed|
    exact max_eq_right hmin
  have hbwd : (L298NMotorDriver.set_motor_speed m speed .backward).duty
      = min 1 |speed| := by
    show max 0 (min 1 |speed|) = min 1 |speed|
    exact max_eq_right hmin
  refine ⟨?_, hfwd, hbwd, rfl, ?_⟩
  · cases d with
    | forward => exact hfwd ▸ ⟨hmin, min_le_left 1 |speed|⟩
    | backward => exact hbwd ▸ ⟨hmin, min_le_left 1 |speed|⟩
    | stop => exact ⟨le_refl 0, zero_le_one⟩
  · show max 0 (min 1 |(-0.5 : ℝ)|) = 0.5
    rw [abs_of_nonpos (by norm_num : (-0.5 : ℝ) ≤ 0)]
    norm_num

/-- C8 counterexample. Construction with a zero or negative wheel diameter
succeeds: the constructor performs no validation, the resulting encoder
answers get_count and get_distance, and a negative diameter yields a
negative circumference pi times the diameter. -/
theorem init_zero_diameter_constructs :
    (MotorEncoder.init 17 18 11 0 1 0).wheel_diameter = 0
    ∧ (MotorEncoder.init 17 18 11 0 1 0).get_count = 0
    ∧ (MotorEncoder.init 17 18 11 0 1 0).get_distance = 0
    ∧ (MotorEncoder.init 17 18 11 (-2) 1 0).wheel_diameter = -2
    ∧ (MotorEncoder.init 17 18 11 (-2) 1 0).wheel_circumference = Real.pi * (-2) := by
  refine ⟨rfl, rfl, ?_, rfl, rfl⟩
  show ((0 : ℤ) : ℝ) / ((11 : ℤ) : ℝ) * (Real.pi * 0) = 0
  norm_num

/-- C8 amended. Constructing an encoder with a zero or negative wheel
diameter does not fail: every field is assigned as given, the circumference
is pi times the diameter and hence nonpositive, and the counter and
velocity start at zero. -/
theorem init_accepts_nonpositive_diameter (pa pb ppr : ℤ) (d g t0 : ℝ)
    (hd : d ≤ 0) :
    (MotorEncoder.init pa pb ppr d g t0).wheel_diameter = d
    ∧ (MotorEncoder.init pa pb ppr d g t0).wheel_circumference = Real.pi * d
    ∧ (MotorEncoder.init pa pb ppr d g t0).count = 0
    ∧ (MotorEncoder.init pa pb ppr d g t0).velocity = 0
    ∧ (MotorEncoder.init pa pb ppr d g t0).wheel_circumference ≤ 0 := by
  refine ⟨rfl, rfl, rfl, rfl, ?_⟩
  show Real.pi * d ≤ 0
  have hpi := Real.pi_pos
  nlinarith

/-- Witness for the amended C8 at the concrete diameter minus 1. -/
theorem init_accepts_nonpositive_diameter_witness :
    ((-1 : ℝ) ≤ 0)
    ∧ ((MotorEncoder.init 17 18 11 (-1) 1 0).wheel_diameter = -1
      ∧ (MotorEncoder.init 17 18 11 (-1) 1 0).wheel_circumference = Real.pi * (-1)
      ∧ (MotorEncoder.init 17 18 11 (-1) 1 0).count = 0
      ∧ (MotorEncoder.init 17 18 11 (-1) 1 0).velocity = 0
      ∧ (MotorEncoder.init 17 18 11 (-1) 1 0).wheel_circumference ≤ 0) :=
  ⟨by norm_num, init_accepts_nonpositive_diameter 17 18 11 (-1) 1 0 (by norm_num)⟩

/-- C6. reset zeroes the pulse count, so get_count afterwards returns 0
regardless of the prior count, and every other field is left unchanged:
velocity, the last-edge timestamp, the geometry and the active flag. -/
theorem reset_zeroes_only_count (e : MotorEncoder) :
    (e.reset).count = 0 ∧ (e.reset).get_count = 0
    ∧ (e.reset).velocity = e.velocity
    ∧ (e.reset).last_time = e.last_time
    ∧ (e.reset).ppr = e.ppr
    ∧ (e.reset).wheel_diameter = e.wheel_diameter
    ∧ (e.reset).gear_ratio = e.gear_ratio
    ∧ (e.reset).wheel_circumference = e.wheel_circumference
    ∧ (e.reset).active = e.active
    ∧ (e.reset).pin_a = e.pin_a
    ∧ (e.reset).pin_b = e.pin_b :=
  ⟨rfl, rfl, rfl, rfl, rfl, rfl, rfl, rfl, rfl, rfl, rfl⟩

/-- C7. After cleanup, any delivered edge callback is a no-op: the state,
including pulse count, velocity and timestamp, is exactly unchanged by any
single pulse or any sequence of pulses; and cleanup is idempotent. -/
theorem detach_makes_edges_noop (e : MotorEncoder) (a b : Bool) (t : ℝ)
    (evs : List EdgeEvent) :
    MotorEncoder.process_encoder_pulse a b t e.cleanup = e.cleanup
    ∧ run_edges e.cleanup evs = e.cleanup
    ∧ e.cleanup.cleanup = e.cleanup := by
  have hstep : ∀ (a b : Bool) (t : ℝ),
      MotorEncoder.process_encoder_pulse a b t e.cleanup = e.cleanup := by
    intro a b t
    unfold MotorEncoder.process_encoder_pulse MotorEncoder.cleanup
    simp
  refine ⟨hstep a b t, ?_, rfl⟩
  induction evs with
  | nil => rfl
  | cons ev tl ih => rw [run_edges_cons, hstep, ih]

/-- C3. drive_arcade mixes left equal to forward plus turn and right equal
to forward minus turn, divides both by the larger magnitude when it exceeds
1, so the resulting tank speeds have magnitude at most 1 and are a common
positive multiple of the unnormalized pair; drive_arcade feeds exactly
these speeds to drive_tank; and mixing (1, 1) yields tank speeds (1, 0). -/
theorem drive_arcade_normalizes (f t : ℝ) (hf : |f| ≤ 1) (ht : |t| ≤ 1) :
    L298NMotorDriver.arcade_speeds f t
      = (if max |f + t| |f - t| > 1
          then ((f + t) / max |f + t| |f - t|, (f - t) / max |f + t| |f - t|)
          else (f + t, f - t))
    ∧ |(L298NMotorDriver.arcade_speeds f t).1| ≤ 1
    ∧ |(L298NMotorDriver.arcade_speeds f t).2| ≤ 1
    ∧ (∃ c, 0 < c ∧ (L298NMotorDriver.arcade_speeds f t).1 = c * (f + t)
        ∧ (L298NMotorDriver.arcade_speeds f t).2 = c * (f - t))
    ∧ L298NMotorDriver.drive_arcade f t
        = L298NMotorDriver.drive_tank (L298NMotorDriver.arcade_speeds f t).1
            (L298NMotorDriver.arcade_speeds f t).2
    ∧ L298NMotorDriver.arcade_speeds 1 1 = (1, 0) := by
  have hdef : L298NMotorDriver.arcade_speeds f t
      = (if max |f + t| |f - t| > 1
          then ((f + t) / max |f + t| |f - t|, (f - t) / max |f + t| |f - t|)
          else (f + t, f - t)) := rfl
  have hex : L298NMotorDriver.arcade_speeds 1 1 = ((1 : ℝ), (0 : ℝ)) := by
    unfold L298NMotorDriver.arcade_speeds
    norm_num
  by_cases hm : max |f + t| |f - t| > 1
  · have hmpos : (0 : ℝ) < max |f + t| |f - t| := lt_trans one_pos hm
    have h1 : (L298NMotorDriver.arcade_speeds f t).1
        = (f + t) / max |f + t| |f - t| := by rw [hdef, if_pos hm]
    have h2 : (L298NMotorDriver.arcade_speeds f t).2
        = (f - t) / max |f + t| |f - t| := by rw [hdef, if_pos hm]
    refine ⟨hdef, ?_, ?_, ⟨(max |f + t| |f - t|)⁻¹, inv_pos.mpr hmpos, ?_, ?_⟩, rfl, hex⟩
    · rw [h1, abs_div, abs_of_pos hmpos]
      exact (div_le_one hmpos).mpr (le_max_left _ _)
    · rw [h2, abs_div, abs_of_pos hmpos]
      exact (div_le_one hmpos).mpr (le_max_right _ _)
    · rw [h1, div_eq_inv_mul]
    · rw [h2, div_eq_inv_mul]
  · have h1 : (L298NMotorDriver.arcade_speeds f t).1 = f + t := by rw [hdef, if_neg hm]
    have h2 : (L298NMotorDriver.arcade_speeds f t).2 = f - t := by rw [hdef, if_neg hm]
    have hle : max |f + t| |f - t| ≤ 1 := not_lt.mp hm
    refine ⟨hdef, ?_, ?_, ⟨1, one_pos, ?_, ?_⟩, rfl, hex⟩
    · rw [h1]
      exact le_trans (le_max_left _ _) hle
    · rw [h2]
      exact le_trans (le_max_right _ _) hle
    · rw [h1, one_mul]
    · rw [h2, one_mul]

/-- Witness for C3 at the saturating input forward 1, turn 1: the bounds
hold and the mixed tank speeds come out as (1, 0). -/
theorem drive_arcade_normalizes_witness :
    (|(1 : ℝ)| ≤ 1 ∧ |(1 : ℝ)| ≤ 1)
    ∧ |(L298NMotorDriver.arcade_speeds 1 1).1| ≤ 1
    ∧ |(L298NMotorDriver.arcade_speeds 1 1).2| ≤ 1
    ∧ L298NMotorDriver.arcade_speeds 1 1 = (1, 0) :=
  ⟨⟨by norm_num, by norm_num⟩,
    (drive_arcade_normalizes 1 1 (by norm_num) (by norm_num)).2.1,
    (drive_arcade_normalizes 1 1 (by norm_num) (by norm_num)).2.2.1,
    (drive_arcade_normalizes 1 1 (by norm_num) (by norm_num)).2.2.2.2.2⟩

/-- C5. drive_tank commands forward pins with the speed as duty for a
positive side speed, backward pins with the magnitude as duty for a
negative one, and stop pins with zero duty for exactly zero; consequently
drive_arcade at (0, 0) and stop command stop with zero duty on both
sides. -/
theorem drive_tank_direction_duty (ls rs : ℝ) (hl : |ls| ≤ 1) (hr : |rs| ≤ 1) :
    (0 < ls → (L298NMotorDriver.drive_tank ls rs).1
        = { motor := Side.left, in1 := true, in2 := false, duty := ls })
    ∧ (ls < 0 → (L298NMotorDriver.drive_tank ls rs).1
        = { motor := Side.left, in1 := false, in2 := true, duty := -ls })
    ∧ (ls = 0 → (L298NMotorDriver.drive_tank ls rs).1
        = { motor := Side.left, in1 := false, in2 := false, duty := 0 })
    ∧ (0 < rs → (L298NMotorDriver.drive_tank ls rs).2
        = { motor := Side.right, in1 := true, in2 := false, duty := rs })
    ∧ (rs < 0 → (L298NMotorDriver.drive_tank ls rs).2
        = { motor := Side.right, in1 := false, in2 := true, duty := -rs })
    ∧ (rs = 0 → (L298NMotorDriver.drive_tank ls rs).2
        = { motor := Side.right, in1 := false, in2 := false, duty := 0 })
    ∧ L298NMotorDriver.drive_arcade 0 0
        = ({ motor := Side.left, in1 := false, in2 := false, duty := 0 },
           { motor := Side.right, in1 := false, in2 := false, duty := 0 })
    ∧ L298NMotorDriver.stop
        = ({ motor := Side.left, in1 := false, in2 := false, duty := 0 },
           { motor := Side.right, in1 := false, in2 := false, duty := 0 }) := by
  have hfwd : ∀ (m : Side) (s : ℝ), 0 < s → s ≤ 1 →
      L298NMotorDriver.set_motor_speed m s .forward
        = { motor := m, in1 := true, in2 := false, duty := s } := by
    intro m s h0 h1
    unfold L298NMotorDriver.set_motor_speed
    rw [abs_of_pos h0, min_eq_right h1, max_eq_right h0.le]
  have hbwd : ∀ (m : Side) (s : ℝ), 0 < s → s ≤ 1 →
      L298NMotorDriver.set_motor_speed m s .backward
        = { motor := m, in1 := false, in2 := true, duty := s } := by
    intro m s h0 h1
    unfold L298NMotorDriver.set_motor_speed
    rw [abs_of_pos h0, min_eq_right h1, max_eq_right h0.le]
  have htank0 : L298NMotorDriver.drive_tank 0 0
      = ({ motor := Side.left, in1 := false, in2 := false, duty := 0 },
         { motor := Side.right, in1 := false, in2 := false, duty := 0 }) := by
    unfold L298NMotorDriver.drive_tank
    norm_num
    constructor <;> rfl
  refine ⟨?_, ?_, ?_, ?_, ?_, ?_, ?_, htank0⟩
  · intro h
    show (if ls > 0 then _ else _) = _
    rw [if_pos h]
    exact hfwd Side.left ls h (abs_le.mp hl).2
  · intro h
    show (if ls > 0 then _ else _) = _
    rw [if_neg (not_lt.mpr h.le), if_pos h, abs_of_neg h]
    exact hbwd Side.left (-ls) (neg_pos.mpr h) (neg_le.mp (abs_le.mp hl).1)
  · intro h
    show (if ls > 0 then _ else _) = _
    rw [if_neg (h ▸ lt_irrefl (0 : ℝ)), if_neg (h ▸ lt_irrefl (0 : ℝ))]
    rfl
  · intro h
    show (if rs > 0 then _ else _) = _
    rw [if_pos h]
    exact hfwd Side.right rs h (abs_le.mp hr).2
  · intro h
    show (if rs > 0 then _ else _) = _
    rw [if_neg (not_lt.mpr h.le), if_pos h, abs_of_neg h]
    exact hbwd Side.right (-rs) (neg_pos.mpr h) (neg_le.mp (abs_le.mp hr).1)
  · intro h
    show (if rs > 0 then _ else _) = _
    rw [if_neg (h ▸ lt_irrefl (0 : ℝ)), if_neg (h ▸ lt_irrefl (0 : ℝ))]
    rfl
  · have harc : L298NMotorDriver.arcade_speeds 0 0 = ((0 : ℝ), (0 : ℝ)) := by
      unfold L298NMotorDriver.arcade_speeds
      norm_num
    show L298NMotorDriver.drive_tank (L298NMotorDriver.arcade_speeds 0 0).1
        (L298NMotorDriver.arcade_speeds 0 0).2 = _
    rw [harc]
    exact htank0

/-- Witness for C5 at left speed one half and right speed minus one half:
the left wheel is commanded forward at duty one half, the right wheel
backward at duty one half, and stop commands stop with zero duty. -/
theorem drive_tank_direction_duty_witness :
    (|(0.5 : ℝ)| ≤ 1 ∧ |(-0.5 : ℝ)| ≤ 1)
    ∧ ((0 : ℝ) < 0.5 → (L298NMotorDriver.drive_tank 0.5 (-0.5)).1
        = { motor := Side.left, in1 := true, in2 := false, duty := 0.5 })
    ∧ ((-0.5 : ℝ) < 0 → (L298NMotorDriver.drive_tank 0.5 (-0.5)).2
        = { motor := Side.right, in1 := false, in2 := true, duty := -(-0.5) })
    ∧ L298NMotorDriver.stop
        = ({ motor := Side.left, in1 := false, in2 := false, duty := 0 },
           { motor := Side.right, in1 := false, in2 := false, duty := 0 }) :=
  ⟨⟨by rw [abs_le]; norm_num, by rw [abs_le]; norm_num⟩,
    (drive_tank_direction_duty 0.5 (-0.5) (by rw [abs_le]; norm_num)
      (by rw [abs_le]; norm_num)).1,
    (drive_tank_direction_duty 0.5 (-0.5) (by rw [abs_le]; norm_num)
      (by rw [abs_le]; norm_num)).2.2.2.2.1,
    (drive_tank_direction_duty 0.5 (-0.5) (by rw [abs_le]; norm_num)
      (by rw [abs_le]; norm_num)).2.2.2.2.2.2.2⟩

/-- C10. On an encoder constructed with positive pulses per revolution and
wheel diameter, the initial velocity is zero, each recomputation above the
one millisecond threshold sets velocity to one over the elapsed time,
divided by pulses per revolution, times the circumference, and after any
sequence of delivered edges get_velocity is never negative. -/
theorem velocity_never_negative (pa pb ppr : ℤ) (d g t0 : ℝ)
    (evs : List EdgeEvent) (e : MotorEncoder) (a b : Bool) (t : ℝ)
    (hppr : 0 < ppr) (hd : 0 < d) :
    (MotorEncoder.init pa pb ppr d g t0).get_velocity = 0
    ∧ (e.active = true → 0.001 < t - e.last_time →
        (MotorEncoder.process_encoder_pulse a b t e).velocity
          = 1 / (t - e.last_time) / (e.ppr : ℝ) * e.wheel_circumference)
    ∧ 0 ≤ (run_edges (MotorEncoder.setup_gpio (MotorEncoder.init pa pb ppr d g t0))
          evs).get_velocity := by
  refine ⟨rfl, ?_, ?_⟩
  · intro ha hdt
    simp only [MotorEncoder.process_encoder_pulse, ha, if_true]
    rw [if_pos hdt]
  · show 0 ≤ (run_edges (MotorEncoder.setup_gpio (MotorEncoder.init pa pb ppr d g t0))
        evs).velocity
    apply run_edges_velocity_nonneg
    · show (0 : ℝ) ≤ Real.pi * d
      exact mul_nonneg Real.pi_pos.le hd.le
    · show (0 : ℝ) ≤ ((ppr : ℤ) : ℝ)
      exact_mod_cast hppr.le
    · exact le_refl 0

/-- Witness for C10 on the default geometry, pulses per revolution 11 and
wheel diameter 4, after one delivered backward edge. -/
theorem velocity_never_negative_witness :
    ((0 : ℤ) < 11 ∧ (0 : ℝ) < 4)
    ∧ 0 ≤ (run_edges (MotorEncoder.setup_gpio (MotorEncoder.init 17 18 11 4 1 0))
          [{ a_level := true, b_level := false, time := 1 }]).get_velocity :=
  ⟨⟨by norm_num, by norm_num⟩,
    (velocity_never_negative 17 18 11 4 1 0
      [{ a_level := true, b_level := false, time := 1 }]
      (MotorEncoder.init 17 18 11 4 1 0) true false 1
      (by norm_num) (by norm_num)).2.2⟩

end Chipurobo
